import Mathlib

/-
Shallow embedding of the matching and ranking engine of the ATM-locator bot
(two source variants: `bot.js` and the unnamed variant file).

Modelling conventions:
* JavaScript strings are `List Char`; `String.prototype.toLowerCase` is
  `Char.toLower` mapped over the list (exact for the ASCII data the bot
  handles); the regex `\s` class is `Char.isWhitespace`.
* JavaScript numbers are `ℚ`.  The similarity arithmetic (`1 - d/maxLen`),
  the 0.8 / 0.3 constants and the 9999 sentinel are exact in `ℚ`.
* `calculateDistance` (the haversine formula) computes with `Math.sin`,
  `Math.cos`, `Math.atan2` on doubles; its numeric value is irrelevant to the
  ranking-pipeline claims, so it is passed to the ranking functions as an
  abstract distance function `calcDist : ℚ → ℚ → ℚ → ℚ → ℚ` standing for
  `calculateDistance(lat1, lon1, lat2, lon2)`.
* `Array.prototype.sort` with a numeric comparator is modelled by
  `List.mergeSort` with the corresponding boolean `≤` test: both are stable
  sorts, keeping the left element on ties.
* The Gebeta HTTP call is modelled by its observable outcome
  (`GebetaResponse`): a rejected promise (network error, non-200 status,
  JSON parse failure), a parsed body without the expected array field, or a
  parsed body with an array of route entries whose fields may be absent
  (`undefined`/`null` collapse to `Option.none`; a JSON `null` array element
  behaves exactly like an entry with no fields, so entries are records of
  optional fields).
-/

namespace ATMBot

/-! ### Text normalization (`normalizeText`, identical in both source files) -/

/-- One character of the vowel class of the regex `/[aeiou]/gi`
(the `i` flag also matches the uppercase vowels). -/
def isVowel (c : Char) : Bool :=
  c == 'a' || c == 'e' || c == 'i' || c == 'o' || c == 'u' ||
  c == 'A' || c == 'E' || c == 'I' || c == 'O' || c == 'U'

/-- Case-insensitive match of the letter `i`, as in the regex `/iya/gi`. -/
def matchI (c : Char) : Bool := c == 'i' || c == 'I'

/-- Case-insensitive match of the letter `y`. -/
def matchY (c : Char) : Bool := c == 'y' || c == 'Y'

/-- Case-insensitive match of the letter `a`. -/
def matchA (c : Char) : Bool := c == 'a' || c == 'A'

/-- Model of `.replace(/iya/gi, 'ia')`: scan left to right, replacing each
non-overlapping occurrence of `iya` (case-insensitively) with the literal
`ia`. -/
def replaceIya : List Char → List Char
  | c1 :: c2 :: c3 :: rest =>
    if matchI c1 && matchY c2 && matchA c3 then
      'i' :: 'a' :: replaceIya rest
    else
      c1 :: replaceIya (c2 :: c3 :: rest)
  | c :: rest => c :: replaceIya rest
  | [] => []

/-- Model of `.replace(/t/gi, 'x')` acting on one character. -/
def replaceTX (c : Char) : Char := if c == 't' || c == 'T' then 'x' else c

/-- Model of `.replace(/k/gi, 'q')` acting on one character. -/
def replaceKQ (c : Char) : Char := if c == 'k' || c == 'K' then 'q' else c

/-- The function `normalizeText` from the source: lowercase, fold `iya` to `ia`, strip
vowels, fold `t` to `x`, fold `k` to `q`, strip whitespace — in this order. -/
def normalizeText (text : List Char) : List Char :=
  ((((replaceIya (text.map Char.toLower)).filter
      (fun c => !(isVowel c))).map replaceTX).map replaceKQ).filter
    (fun c => !(c.isWhitespace))

/-! ### Similarity scoring (`getSimilarityScore`, unnamed variant file) -/

/-- Whether `sub` occurs at the start of `l` (helper for the model of
`String.prototype.includes`). -/
def startsWithList : List Char → List Char → Bool
  | _, [] => true
  | [], _ :: _ => false
  | a :: as, b :: bs => a == b && startsWithList as bs

/-- Model of `l.includes(sub)` for JavaScript strings: `sub` occurs contiguously in
`l`.  As in JavaScript, the empty string is contained in every string. -/
def hasSubstringList : List Char → List Char → Bool
  | [], sub => sub.isEmpty
  | a :: t, sub => startsWithList (a :: t) sub || hasSubstringList t sub

/-- The Levenshtein table of `getSimilarityScore`: `levDP s1 s2 i j` is
`dp[i][j]`, the edit distance between the first `i` characters of `s1` and
the first `j` characters of `s2`, filled with the exact recurrence of the
source (`dp[i][0] = i`, `dp[0][j] = j`, equal characters copy the diagonal,
otherwise 1 + the minimum of the three neighbours, with `Math.min(a, b, c)`
read as `min (min a b) c`). -/
def levDP (s1 s2 : List Char) : Nat → Nat → Nat
  | i, 0 => i
  | 0, j + 1 => j + 1
  | i + 1, j + 1 =>
    if s1.getD i ' ' == s2.getD j ' ' then
      levDP s1 s2 i j
    else
      min (min (levDP s1 s2 i (j + 1) + 1) (levDP s1 s2 (i + 1) j + 1))
        (levDP s1 s2 i j + 1)
termination_by i j => (i, j)

/-- The function `getSimilarityScore` from the unnamed variant file:
normalize both
inputs; identical keys score 1.0; mutual containment scores 0.8; otherwise
`1 - levenshtein / max-length`, with the source's guards for empty keys. -/
def getSimilarityScore (str1 str2 : List Char) : ℚ :=
  let norm1 := normalizeText str1
  let norm2 := normalizeText str2
  if norm1 = norm2 then 1.0
  else if hasSubstringList norm1 norm2 || hasSubstringList norm2 norm1 then 0.8
  else
    let m := norm1.length
    let n := norm2.length
    if m = 0 then (if n = 0 then 1 else 0)
    else if n = 0 then 0
    else 1 - (levDP norm1 norm2 m n : ℚ) / (max m n : ℚ)

/-! ### Name extraction (`extractNameAfterDash`, identical in both files) -/

/-- Model of `str.split(sep)` for JavaScript strings (one-character
separator):
`"a-b-c"` splits to `["a","b","c"]`, the empty string splits to `[""]`. -/
def splitOnChar (sep : Char) : List Char → List (List Char)
  | [] => [[]]
  | c :: rest =>
    match splitOnChar sep rest with
    | [] => [[c]]
    | h :: t => if c == sep then [] :: h :: t else (c :: h) :: t

/-- Model of `str.trim()`: remove leading and trailing whitespace. -/
def trimList (l : List Char) : List Char :=
  ((l.dropWhile Char.isWhitespace).reverse.dropWhile Char.isWhitespace).reverse

/-- The function `extractNameAfterDash` from the source: split on `'-'`;
if there is more
than one part take `parts[1]` trimmed, otherwise the whole name trimmed. -/
def extractNameAfterDash (fullName : List Char) : List Char :=
  let parts := splitOnChar '-' fullName
  if parts.length > 1 then trimList (parts.getD 1 []) else trimList fullName

/-- Modelled from the spec (claim C5's reading): the token after the LAST
hierarchical delimiter `'-'`, trimmed, or the whole trimmed name when no
delimiter is present.  Used only to compare the claim against the source
function `extractNameAfterDash`. -/
def extractNameAfterLastDashSpec (fullName : List Char) : List Char :=
  let parts := splitOnChar '-' fullName
  if parts.length > 1 then trimList (parts.getLastD []) else trimList fullName

/-- Modelled from the spec as amended: the token immediately after the FIRST
hierarchical delimiter `'-'` (up to the next delimiter or the end), trimmed,
or the whole trimmed name when no delimiter is present. -/
def extractNameAfterFirstDashSpec (fullName : List Char) : List Char :=
  if fullName.contains '-' then
    trimList (((fullName.dropWhile (fun c => !(c == '-'))).drop 1).takeWhile
      (fun c => !(c == '-')))
  else trimList fullName

/-! ### Data model -/

/-- One catalog entry (a row of `atms.csv` after the loader parsed it). -/
structure ATM where
  id : List Char
  name : List Char
  lat : ℚ
  lon : ℚ
deriving DecidableEq

/-- An ATM paired with its name-similarity score (`{...atm, score}`). -/
structure ScoredATM where
  atm : ATM
  score : ℚ
deriving DecidableEq

/-- An ATM paired with a distance (`{...atm, distance}`). -/
structure DistATM where
  atm : ATM
  distance : ℚ
deriving DecidableEq

/-- The success-path intermediate of `bot.js`'s `getNearestATMs`:
`{...atm, apiDistance, duration, haversineDistance}` (the `distance` field
still holds the haversine value at this point). -/
structure ApiDistATM where
  atm : ATM
  distance : ℚ
  apiDistance : ℚ
  duration : Option ℚ
  haversineDistance : ℚ
deriving DecidableEq

/-- A ranked result as delivered to the caller: the ATM, the displayed
`distance` field, and the optional duration (`none` models a JavaScript
`null`/`undefined` duration). -/
structure ResultATM where
  atm : ATM
  distance : ℚ
  duration : Option ℚ
deriving DecidableEq

/-- One element of the routing-service response array.  `bot.js` reads the
fields `distance` and `time`; the unnamed variant reads `distance` and
`duration`.  A missing field is `none`; a JSON `null` array element behaves
exactly like `⟨none, none, none⟩`. -/
structure RouteEntry where
  distance : Option ℚ
  time : Option ℚ
  duration : Option ℚ
deriving DecidableEq

/-- Observable outcome of the `gebetaOneToMany` HTTP call:
`.error ()` is a rejected promise (network error, non-200 status, or JSON
parse failure); `.ok none` is a parsed body without the expected array field
(`origin_to_destination` in `bot.js`, `routes` in the unnamed variant);
`.ok (some rs)` is a parsed body carrying the array `rs`. -/
abbrev GebetaResponse := Except Unit (Option (List RouteEntry))

/-- Model of `atms.map(atm => ({...atm, distance: calculateDistance(refLat, refLon,
atm.lat, atm.lon)}))`, shared by both files. -/
def withDistances (calcDist : ℚ → ℚ → ℚ → ℚ → ℚ) (refLat refLon : ℚ)
    (atms : List ATM) : List DistATM :=
  atms.map fun atm => ⟨atm, calcDist refLat refLon atm.lat atm.lon⟩

/-! ### Name matching (`findATMsByName`, unnamed variant file) -/

/-- The function `findATMsByName` from the unnamed variant file: score
every catalog
entry's extracted name against the query, keep scores `> 0.3`, sort
descending by score (`(a, b) => b.score - a.score`, stable). -/
def findATMsByName (searchName : List Char) (atms : List ATM) :
    List ScoredATM :=
  let scored := atms.map fun atm =>
    (⟨atm, getSimilarityScore searchName (extractNameAfterDash atm.name)⟩ :
      ScoredATM)
  let filtered := scored.filter fun m => decide ((0.3 : ℚ) < m.score)
  filtered.mergeSort fun a b => decide (b.score ≤ a.score)

/-! ### Proximity ranking, `bot.js` variant -/

namespace BotJs

/-- Step 2 of `bot.js`'s `getNearestATMs`: the 10 closest ATMs by haversine
distance (sort ascending by `distance`, `slice(0, 10)`). -/
def closest10 (calcDist : ℚ → ℚ → ℚ → ℚ → ℚ) (userLat userLon : ℚ)
    (atms : List ATM) : List DistATM :=
  ((withDistances calcDist userLat userLon atms).mergeSort
    fun a b => decide (a.distance ≤ b.distance)).take 10

/-- The destination coordinates `bot.js` sends to `gebetaOneToMany`: the
`(lat, lon)` pairs of exactly the pre-filtered `closest10` list. -/
def gebetaDestinations (calcDist : ℚ → ℚ → ℚ → ℚ → ℚ) (userLat userLon : ℚ)
    (atms : List ATM) : List (ℚ × ℚ) :=
  (closest10 calcDist userLat userLon atms).map fun d => (d.atm.lat, d.atm.lon)

/-- The success-path mapping of `bot.js`'s `getNearestATMs`:
`closest10.map((atm, idx) => ...)` reading `origin_to_destination[idx + 1]`
(index 0 is the origin-to-origin entry); an absent entry or an entry with an
`undefined` `distance` falls back to that ATM's haversine distance. -/
def refineWithApi (routes : List RouteEntry) (c10 : List DistATM) :
    List ApiDistATM :=
  c10.enum.map fun p =>
    match routes.get? (p.1 + 1) with
    | some routeData =>
      ⟨p.2.atm, p.2.distance,
        (match routeData.distance with
         | some v => v
         | none => p.2.distance),
        routeData.time, p.2.distance⟩
    | none => ⟨p.2.atm, p.2.distance, p.2.distance, none, p.2.distance⟩

/-- The function `getNearestATMs` from `bot.js`: pre-filter to the 10
geodesically
closest, then on a usable routing response re-sort those 10 by API distance
and return the best 5 (with `distance` overwritten by `apiDistance`); on a
rejected promise or a body without the `origin_to_destination` array, return
the top 5 of the pre-filter unchanged. -/
def getNearestATMs (calcDist : ℚ → ℚ → ℚ → ℚ → ℚ) (userLat userLon : ℚ)
    (atms : List ATM) (resp : GebetaResponse) : List ResultATM :=
  let c10 := closest10 calcDist userLat userLon atms
  match resp with
  | .ok (some routes) =>
    let withApi := refineWithApi routes c10
    let best5 := (withApi.mergeSort
      fun a b => decide (a.apiDistance ≤ b.apiDistance)).take 5
    best5.map fun a => ⟨a.atm, a.apiDistance, a.duration⟩
  | _ => (c10.take 5).map fun a => ⟨a.atm, a.distance, none⟩

end BotJs

/-! ### Proximity ranking, unnamed variant file -/

namespace Part000

/-- The destination coordinates the unnamed variant's `getNearestATMs` sends
to `gebetaOneToMany`: the `(lon, lat)` pairs of the ENTIRE catalog — this
variant performs no geodesic pre-filter before the routing call. -/
def gebetaDestinationsNear (atms : List ATM) : List (ℚ × ℚ) :=
  atms.map fun d => (d.lon, d.lat)

/-- The function `getNearestATMs` from the unnamed variant file: on a
usable routing
response, rank the WHOLE catalog by `routes[idx].distance / 1000` (a falsy —
absent, `null` or zero — distance becomes the 9999 sentinel) and take the
first `limit`; otherwise fall back to ranking the whole catalog by haversine
distance. -/
def getNearestATMs (calcDist : ℚ → ℚ → ℚ → ℚ → ℚ) (userLat userLon : ℚ)
    (atms : List ATM) (limit : Nat) (resp : GebetaResponse) : List ResultATM :=
  match resp with
  | .ok (some routes) =>
    let withD := atms.enum.map fun p =>
      let route := routes.get? p.1
      let dist : ℚ :=
        match route with
        | some r =>
          match r.distance with
          | some v => if v = 0 then 9999 else v / 1000
          | none => 9999
        | none => 9999
      let dur : Option ℚ :=
        match route with
        | some r =>
          match r.duration with
          | some v => if v = 0 then none else some v
          | none => none
        | none => none
      (⟨p.2, dist, dur⟩ : ResultATM)
    (withD.mergeSort fun a b => decide (a.distance ≤ b.distance)).take limit
  | _ =>
    (((withDistances calcDist userLat userLon atms).mergeSort
        fun a b => decide (a.distance ≤ b.distance)).take limit).map
      fun a => ⟨a.atm, a.distance, none⟩

/-- The function `getATMsSortedByProximity` from the unnamed variant file:
pure haversine
ranking of the whole catalog around the first reference ATM, no routing
call. -/
def getATMsSortedByProximity (calcDist : ℚ → ℚ → ℚ → ℚ → ℚ)
    (referenceATMs : List ATM) (atms : List ATM) (limit : Nat) :
    List DistATM :=
  match referenceATMs with
  | [] => []
  | refATM :: _ =>
    ((withDistances calcDist refATM.lat refATM.lon atms).mergeSort
      fun a b => decide (a.distance ≤ b.distance)).take limit

end Part000

/-! ### Concrete inputs used by counterexamples and witnesses -/

/-- A concrete stand-in for `calculateDistance` in counterexamples: the
distance to an ATM is just the destination latitude (the pipeline treats the
distance function as a black box, so any function exhibits its behaviour). -/
def cdEx : ℚ → ℚ → ℚ → ℚ → ℚ := fun _ _ lat2 _ => lat2

/-- Concrete catalog entry at geodesic distance 1 under `cdEx`. -/
def atmA : ATM := ⟨['1'], ['A'], 1, 0⟩

/-- Concrete catalog entry at geodesic distance 2 under `cdEx`. -/
def atmB : ATM := ⟨['2'], ['B'], 2, 0⟩

/-- A concrete eleven-entry catalog (ids `0`–`9` and `X`), larger than the
ten-entry shortlist the spec's pre-filter would send to the routing
service. -/
def ex11ATMs : List ATM :=
  [⟨['0'], ['a'], 0, 0⟩, ⟨['1'], ['b'], 1, 0⟩, ⟨['2'], ['c'], 2, 0⟩,
   ⟨['3'], ['d'], 3, 0⟩, ⟨['4'], ['e'], 4, 0⟩, ⟨['5'], ['f'], 5, 0⟩,
   ⟨['6'], ['g'], 6, 0⟩, ⟨['7'], ['h'], 7, 0⟩, ⟨['8'], ['i'], 8, 0⟩,
   ⟨['9'], ['j'], 9, 0⟩, ⟨['X'], ['k'], 10, 0⟩]

/-! ### Lemmas about `splitOnChar` and name extraction -/

theorem takeWhile_eq_self_of_not_contains {sep : Char} {l : List Char}
    (h : l.contains sep = false) :
    l.takeWhile (fun c => !(c == sep)) = l := by
  induction l with
  | nil => rfl
  | cons c rest ih =>
    rw [List.contains_cons, Bool.or_eq_false_iff] at h
    have h1 : ¬ (c = sep) := by
      intro hh
      rw [hh] at h
      simp at h
    rw [List.takeWhile_cons]
    simp [h1, ih h.2]

theorem splitOnChar_ne_nil (sep : Char) (l : List Char) :
    splitOnChar sep l ≠ [] := by
  induction l with
  | nil => simp [splitOnChar]
  | cons c rest ih =>
    rw [splitOnChar]
    rcases hsr : splitOnChar sep rest with _ | ⟨hd, tl⟩
    · simp
    · by_cases hc : (c == sep) = true <;> simp [hc]

theorem splitOnChar_eq (sep : Char) (l : List Char) :
    splitOnChar sep l =
      if l.contains sep then
        (l.takeWhile (fun c => !(c == sep))) ::
          splitOnChar sep ((l.dropWhile (fun c => !(c == sep))).drop 1)
      else [l] := by
  induction l with
  | nil => rfl
  | cons c rest ih =>
    rcases hsr : splitOnChar sep rest with _ | ⟨hd, tl⟩
    · exact absurd hsr (splitOnChar_ne_nil sep rest)
    · by_cases hc : c = sep
      · rw [splitOnChar, hsr]
        have hcont : (c :: rest).contains sep = true := by
          rw [List.contains_cons]
          simp [hc]
        rw [if_pos hcont]
        have hbc : (c == sep) = true := by simp [hc]
        simp [hbc, hsr]
      · rw [splitOnChar, hsr]
        have hbc : (c == sep) = false := by simp [hc]
        have hcont : (c :: rest).contains sep = rest.contains sep := by
          rw [List.contains_cons]
          have : (sep == c) = false := by simp [Ne.symm hc]
          rw [this, Bool.false_or]
        rw [hcont]
        simp only [hbc, Bool.false_eq_true, if_false, List.takeWhile_cons,
          List.dropWhile_cons, Bool.not_false, if_true]
        by_cases hr : rest.contains sep = true
        · rw [if_pos hr]
          rw [ih, if_pos hr] at hsr
          injection hsr with h1 h2
          rw [h1, h2]
        · rw [if_neg hr]
          rw [ih, if_neg hr] at hsr
          injection hsr with h1 h2
          rw [h1, h2]

theorem splitOnChar_head (sep : Char) (l : List Char) :
    (splitOnChar sep l).getD 0 [] = l.takeWhile (fun c => !(c == sep)) := by
  rw [splitOnChar_eq]
  by_cases h : l.contains sep = true
  · rw [if_pos h]
    rfl
  · rw [if_neg h]
    have hf : l.contains sep = false := by
      cases hb : l.contains sep
      · rfl
      · exact absurd hb h
    rw [takeWhile_eq_self_of_not_contains hf]
    rfl

/-- C5: the claim reads the comparable name as the token after the LAST
hierarchical delimiter; on the three-segment name `"Bank-Atote-Branch"` the
source function returns the token after the FIRST delimiter (`"Atote"`),
not the token after the last one (`"Branch"`), so the claim is false. -/
theorem c5_counterexample :
    extractNameAfterDash ("Bank-Atote-Branch".toList) = "Atote".toList ∧
    extractNameAfterLastDashSpec ("Bank-Atote-Branch".toList) = "Branch".toList ∧
    extractNameAfterDash ("Bank-Atote-Branch".toList) ≠
      extractNameAfterLastDashSpec ("Bank-Atote-Branch".toList) := by
  refine ⟨by decide, by decide, by decide⟩

/-- C5 (amended): for every POI name string, the comparable name used for
matching is the token immediately after the FIRST hierarchical delimiter
(`'-'`) in the name (up to the next delimiter), trimmed, or the whole
trimmed name when no delimiter is present. -/
theorem c5_extract_after_first_dash (fullName : List Char) :
    extractNameAfterDash fullName = extractNameAfterFirstDashSpec fullName := by
  simp only [extractNameAfterDash, extractNameAfterFirstDashSpec]
  by_cases h : fullName.contains '-' = true
  · rw [if_pos h, splitOnChar_eq, if_pos h]
    have hs := splitOnChar_ne_nil '-'
      ((fullName.dropWhile (fun c => !(c == '-'))).drop 1)
    have hlen : 0 < (splitOnChar '-'
        ((fullName.dropWhile (fun c => !(c == '-'))).drop 1)).length :=
      List.length_pos.mpr hs
    rw [if_pos (by simp only [List.length_cons]; omega)]
    rw [List.getD_cons_succ, splitOnChar_head]
  · rw [if_neg h, splitOnChar_eq, if_neg h]
    rw [if_neg (by simp)]

/-- C9: the normalization identifies the k/q fold (`"Kebele"`/`"Qebele"`)
and the t/x fold (`"Atote"`/`"Axoxe"`); `"Piassa"` and `"Piasa"` have
different consonant skeletons and indeed normalize differently. -/
theorem c9_normalization_equiv_classes :
    normalizeText "Kebele".toList = normalizeText "Qebele".toList ∧
    normalizeText "Atote".toList = normalizeText "Axoxe".toList ∧
    normalizeText "Piassa".toList ≠ normalizeText "Piasa".toList := by
  refine ⟨by decide, by decide, by decide⟩

/-! ### Lemmas about `getSimilarityScore` -/

theorem hasSubstringList_nil_right (l : List Char) :
    hasSubstringList l [] = true := by
  cases l with
  | nil => rfl
  | cons a t =>
    rw [hasSubstringList]
    rfl

/-- C3: the claim says a pair whose normalized keys are empty/non-empty
scores 0; in fact the containment branch fires first — in JavaScript the
empty string is a substring of every string — so the empty string against
`"b"` scores 0.8, not 0. -/
theorem c3_counterexample :
    getSimilarityScore [] ['b'] = 0.8 ∧ (0.8 : ℚ) ≠ 0 :=
  ⟨rfl, by norm_num⟩

/-- C3 (amended): when both normalized keys are empty the score is 1.0;
when exactly one normalized key is empty the score is 0.8 (the containment
branch fires, because the empty key is a substring of the other key), not
0. -/
theorem c3_empty_key_scores (a b : List Char) :
    (normalizeText a = [] ∧ normalizeText b = [] →
      getSimilarityScore a b = 1.0) ∧
    (normalizeText a = [] ∧ normalizeText b ≠ [] →
      getSimilarityScore a b = 0.8) ∧
    (normalizeText a ≠ [] ∧ normalizeText b = [] →
      getSimilarityScore a b = 0.8) := by
  refine ⟨?_, ?_, ?_⟩
  · rintro ⟨h1, h2⟩
    simp only [getSimilarityScore]
    rw [if_pos (h1.trans h2.symm)]
  · rintro ⟨h1, h2⟩
    simp only [getSimilarityScore, h1]
    rw [if_neg (fun hh => h2 hh.symm),
      if_pos (by simp [hasSubstringList_nil_right])]
  · rintro ⟨h1, h2⟩
    simp only [getSimilarityScore, h2]
    rw [if_neg (fun hh => h1 hh),
      if_pos (by simp [hasSubstringList_nil_right])]

/-- Witness for C3's theorem at concrete inputs: both keys empty scores
1.0, and each one-sided empty pair scores 0.8. -/
theorem c3_witness :
    getSimilarityScore [] [] = 1.0 ∧ getSimilarityScore [] ['b'] = 0.8 ∧
    getSimilarityScore ['b'] [] = 0.8 :=
  ⟨(c3_empty_key_scores [] []).1 ⟨rfl, rfl⟩,
   (c3_empty_key_scores [] ['b']).2.1 ⟨rfl, by decide⟩,
   (c3_empty_key_scores ['b'] []).2.2 ⟨by decide, rfl⟩⟩

theorem levDP_symm (s1 s2 : List Char) : ∀ i j, levDP s1 s2 i j = levDP s2 s1 j i
  | i, 0 => by cases i <;> simp [levDP]
  | 0, j + 1 => by simp [levDP]
  | i + 1, j + 1 => by
    have h1 := levDP_symm s1 s2 i j
    have h2 := levDP_symm s1 s2 i (j + 1)
    have h3 := levDP_symm s1 s2 (i + 1) j
    simp only [levDP]
    by_cases hc : (s1.getD i ' ' == s2.getD j ' ') = true
    · have hcr : (s2.getD j ' ' == s1.getD i ' ') = true := by
        rw [beq_iff_eq] at hc ⊢
        exact hc.symm
      rw [if_pos hc, if_pos hcr, h1]
    · have hcr : ¬ (s2.getD j ' ' == s1.getD i ' ') = true := by
        rw [beq_iff_eq] at hc ⊢
        exact fun hh => hc hh.symm
      rw [if_neg hc, if_neg hcr, h1, h2, h3]
      omega
termination_by i j => (i, j)

theorem levDP_le_max (s1 s2 : List Char) : ∀ i j, levDP s1 s2 i j ≤ max i j
  | i, 0 => by simp [levDP]
  | 0, j + 1 => by simp [levDP]
  | i + 1, j + 1 => by
    have h1 := levDP_le_max s1 s2 i j
    simp only [levDP]
    by_cases hc : (s1.getD i ' ' == s2.getD j ' ') = true
    · rw [if_pos hc]
      omega
    · rw [if_neg hc]
      omega
termination_by i j => (i, j)

/-- C7: the similarity score is symmetric — every branch of
`getSimilarityScore` (key equality, mutual containment, the empty-key
guards, and the Levenshtein formula) is invariant under swapping the two
inputs. -/
theorem c7_similarity_symm (a b : List Char) :
    getSimilarityScore a b = getSimilarityScore b a := by
  simp only [getSimilarityScore]
  by_cases h1 : normalizeText a = normalizeText b
  · rw [if_pos h1, if_pos h1.symm]
  · rw [if_neg h1, if_neg (show ¬ normalizeText b = normalizeText a from
      fun hh => h1 hh.symm)]
    by_cases h2 : (hasSubstringList (normalizeText a) (normalizeText b) ||
        hasSubstringList (normalizeText b) (normalizeText a)) = true
    · have h2r : (hasSubstringList (normalizeText b) (normalizeText a) ||
          hasSubstringList (normalizeText a) (normalizeText b)) = true := by
        rw [Bool.or_comm]
        exact h2
      rw [if_pos h2, if_pos h2r]
    · have h2r : ¬ (hasSubstringList (normalizeText b) (normalizeText a) ||
          hasSubstringList (normalizeText a) (normalizeText b)) = true := by
        rw [Bool.or_comm]
        exact h2
      rw [if_neg h2, if_neg h2r]
      by_cases hm : (normalizeText a).length = 0
      · by_cases hn : (normalizeText b).length = 0
        · exact absurd ((List.length_eq_zero.mp hm).trans
            (List.length_eq_zero.mp hn).symm) h1
        · rw [if_pos hm, if_neg hn, if_neg hn, if_pos hm]
      · by_cases hn : (normalizeText b).length = 0
        · rw [if_neg hm, if_pos hn, if_pos hn, if_neg hm]
        · rw [if_neg hm, if_neg hn, if_neg hn, if_neg hm]
          rw [levDP_symm,
            max_comm ((normalizeText a).length : ℚ) ((normalizeText b).length : ℚ)]

/-- C8: every similarity score lies in `[0, 1]`, and any string scores 1.0
against itself (the claim restricts the latter to non-empty strings; the
key-equality branch covers it regardless). -/
theorem c8_similarity_bounds (a b : List Char) :
    (0 ≤ getSimilarityScore a b ∧ getSimilarityScore a b ≤ 1) ∧
    (a ≠ [] → getSimilarityScore a a = 1.0) := by
  constructor
  · simp only [getSimilarityScore]
    split_ifs with h1 h2 h3 h4 h5 <;> try norm_num
    have hd := levDP_le_max (normalizeText a) (normalizeText b)
      (normalizeText a).length (normalizeText b).length
    have hmax : (0 : ℚ) <
        max ((normalizeText a).length : ℚ) ((normalizeText b).length : ℚ) := by
      have h0 : 0 < (normalizeText a).length := by omega
      have h0q : (0 : ℚ) < ((normalizeText a).length : ℚ) := by exact_mod_cast h0
      exact lt_of_lt_of_le h0q (le_max_left _ _)
    have hdiv1 : ((levDP (normalizeText a) (normalizeText b)
          (normalizeText a).length (normalizeText b).length : Nat) : ℚ) /
        (max ((normalizeText a).length : ℚ) ((normalizeText b).length : ℚ)) ≤ 1 := by
      rw [div_le_one hmax]
      exact_mod_cast hd
    have hdiv0 : (0 : ℚ) ≤ ((levDP (normalizeText a) (normalizeText b)
          (normalizeText a).length (normalizeText b).length : Nat) : ℚ) /
        (max ((normalizeText a).length : ℚ) ((normalizeText b).length : ℚ)) := by
      apply div_nonneg
      · exact_mod_cast Nat.zero_le _
      · exact le_of_lt hmax
    constructor
    · linarith
    · linarith
  · intro _
    simp [getSimilarityScore]

/-- Witness for C8's theorem at concrete inputs: the bounds at `"b"`,`"c"`
and the self-score of the non-empty `"b"`. -/
theorem c8_witness :
    (0 ≤ getSimilarityScore ['b'] ['c'] ∧ getSimilarityScore ['b'] ['c'] ≤ 1) ∧
    getSimilarityScore ['b'] ['b'] = 1.0 :=
  ⟨(c8_similarity_bounds ['b'] ['c']).1,
   (c8_similarity_bounds ['b'] ['b']).2 (by decide)⟩

/-! ### Lemmas about `Char.toLower` and the normalization pipeline -/

theorem toNat_ofNat_valid {m : Nat} (h : m.isValidChar) :
    (Char.ofNat m).toNat = m := by
  rw [Char.ofNat, dif_pos h]
  rfl

theorem toLower_eq (c : Char) :
    c.toLower = if 65 ≤ c.toNat ∧ c.toNat ≤ 90 then Char.ofNat (c.toNat + 32)
      else c := rfl

theorem toNat_toLower (c : Char) :
    c.toLower.toNat = if 65 ≤ c.toNat ∧ c.toNat ≤ 90 then c.toNat + 32
      else c.toNat := by
  rw [toLower_eq]
  by_cases h : 65 ≤ c.toNat ∧ c.toNat ≤ 90
  · rw [if_pos h, if_pos h]
    exact toNat_ofNat_valid (by constructor; omega)
  · rw [if_neg h, if_neg h]

theorem toLower_toLower (c : Char) : c.toLower.toLower = c.toLower := by
  rw [toLower_eq c.toLower, if_neg]
  rw [toNat_toLower]
  by_cases h : 65 ≤ c.toNat ∧ c.toNat ≤ 90
  · rw [if_pos h]
    omega
  · rw [if_neg h]
    exact h

theorem map_id_of_mem {α : Type} (l : List α) (f : α → α)
    (h : ∀ c ∈ l, f c = c) : l.map f = l := by
  induction l with
  | nil => rfl
  | cons c t ih =>
    rw [List.map_cons, h c (by simp), ih (fun x hx => h x (by simp [hx]))]

theorem filter_id_of_mem {α : Type} (l : List α) (p : α → Bool)
    (h : ∀ c ∈ l, p c = true) : l.filter p = l := by
  induction l with
  | nil => rfl
  | cons c t ih =>
    rw [List.filter_cons, if_pos (h c (by simp)),
      ih (fun x hx => h x (by simp [hx]))]

theorem mem_replaceIya (c : Char) :
    ∀ (l : List Char), c ∈ replaceIya l → c ∈ l ∨ c = 'i' ∨ c = 'a'
  | [] => by simp [replaceIya]
  | [a] => fun h => Or.inl h
  | [a, b] => fun h => Or.inl h
  | a :: b :: d :: rest => by
    rw [replaceIya]
    by_cases h3 : (matchI a && matchY b && matchA d) = true
    · rw [if_pos h3]
      intro hc
      simp only [List.mem_cons] at hc
      rcases hc with h | h | h
      · exact Or.inr (Or.inl h)
      · exact Or.inr (Or.inr h)
      · rcases mem_replaceIya c rest h with hm | hi | ha
        · exact Or.inl (by simp only [List.mem_cons]; tauto)
        · exact Or.inr (Or.inl hi)
        · exact Or.inr (Or.inr ha)
    · rw [if_neg h3]
      intro hc
      simp only [List.mem_cons] at hc
      rcases hc with h | h
      · exact Or.inl (by simp only [List.mem_cons]; tauto)
      · rcases mem_replaceIya c (b :: d :: rest) h with hm | hi | ha
        · exact Or.inl (List.mem_cons_of_mem _ hm)
        · exact Or.inr (Or.inl hi)
        · exact Or.inr (Or.inr ha)

theorem replaceIya_of_no_i :
    ∀ (l : List Char), (∀ c ∈ l, matchI c = false) → replaceIya l = l
  | [] => fun _ => rfl
  | [a] => fun _ => rfl
  | [a, b] => fun _ => rfl
  | a :: b :: d :: rest => fun h => by
    rw [replaceIya, if_neg]
    · rw [replaceIya_of_no_i (b :: d :: rest)
        (fun x hx => h x (List.mem_cons_of_mem _ hx))]
    · have ha := h a (by simp)
      simp [ha]

theorem matchI_eq_false_of_not_vowel {c : Char} (h : isVowel c = false) :
    matchI c = false := by
  cases hm : matchI c
  · rfl
  · exfalso
    rw [matchI, Bool.or_eq_true, beq_iff_eq, beq_iff_eq] at hm
    rcases hm with rfl | rfl
    · simp [isVowel] at h
    · simp [isVowel] at h

theorem normalizeText_all (x : List Char) :
    ∀ c ∈ normalizeText x, Char.toLower c = c ∧ isVowel c = false ∧
      replaceTX c = c ∧ replaceKQ c = c ∧ c.isWhitespace = false := by
  intro c hc
  simp only [normalizeText] at hc
  rw [List.mem_filter] at hc
  obtain ⟨hc1, hws⟩ := hc
  rw [Bool.not_eq_eq_eq_not, Bool.not_true] at hws
  rw [List.mem_map] at hc1
  obtain ⟨c4, hc4, rfl⟩ := hc1
  rw [List.mem_map] at hc4
  obtain ⟨c3, hc3, rfl⟩ := hc4
  rw [List.mem_filter] at hc3
  obtain ⟨hc3m, hvow⟩ := hc3
  rw [Bool.not_eq_eq_eq_not, Bool.not_true] at hvow
  have hlow : Char.toLower c3 = c3 := by
    rcases mem_replaceIya c3 _ hc3m with hmem | h | h
    · rw [List.mem_map] at hmem
      obtain ⟨c0, _, rfl⟩ := hmem
      exact toLower_toLower c0
    · rw [h]
      decide
    · rw [h]
      decide
  by_cases ht : (c3 == 't' || c3 == 'T') = true
  · have hx : replaceTX c3 = 'x' := by rw [replaceTX, if_pos ht]
    rw [hx]
    refine ⟨by decide, by decide, by decide, by decide, by decide⟩
  · have hx : replaceTX c3 = c3 := by rw [replaceTX, if_neg ht]
    rw [hx] at hws ⊢
    by_cases hk : (c3 == 'k' || c3 == 'K') = true
    · have hq : replaceKQ c3 = 'q' := by rw [replaceKQ, if_pos hk]
      rw [hq]
      refine ⟨by decide, by decide, by decide, by decide, by decide⟩
    · have hq : replaceKQ c3 = c3 := by rw [replaceKQ, if_neg hk]
      rw [hq] at hws ⊢
      exact ⟨hlow, hvow, by rw [replaceTX, if_neg ht], by rw [replaceKQ, if_neg hk], hws⟩

/-- C10: the normalization pipeline is idempotent — its output contains no
uppercase letters (every character is fixed by `toLower`), no vowels, no
`t`/`T` or `k`/`K` (every character is fixed by the two folds), and no
whitespace, so on an already-normalized key each stage is a no-op. -/
theorem c10_normalize_idempotent (x : List Char) :
    normalizeText (normalizeText x) = normalizeText x ∧
    (normalizeText x).all (fun c => (Char.toLower c == c) && !(isVowel c) &&
      (replaceTX c == c) && (replaceKQ c == c) && !(c.isWhitespace)) = true := by
  have hall := normalizeText_all x
  constructor
  · conv_lhs => rw [normalizeText]
    rw [map_id_of_mem (normalizeText x) Char.toLower
      (fun c hc => (hall c hc).1)]
    rw [replaceIya_of_no_i (normalizeText x)
      (fun c hc => matchI_eq_false_of_not_vowel (hall c hc).2.1)]
    rw [filter_id_of_mem (normalizeText x) (fun c => !(isVowel c))
      (fun c hc => by
        have := (hall c hc).2.1
        simp [this])]
    rw [map_id_of_mem (normalizeText x) replaceTX
      (fun c hc => (hall c hc).2.2.1)]
    rw [map_id_of_mem (normalizeText x) replaceKQ
      (fun c hc => (hall c hc).2.2.2.1)]
    rw [filter_id_of_mem (normalizeText x) (fun c => !(c.isWhitespace))
      (fun c hc => by
        have := (hall c hc).2.2.2.2
        simp [this])]
  · rw [List.all_eq_true]
    intro c hc
    obtain ⟨hl, hv, ht, hk, hw⟩ := hall c hc
    simp [hl, hv, ht, hk, hw]

/-! ### Lemmas about key-based stable sorting -/

theorem mergeSort_key_pairwise {α : Type} (f : α → ℚ) (l : List α) :
    (l.mergeSort (fun a b => decide (f a ≤ f b))).Pairwise
      (fun a b => f a ≤ f b) := by
  have hs := @List.sorted_mergeSort α (fun a b => decide (f a ≤ f b))
    (fun a b c h1 h2 => by
      rw [decide_eq_true_eq] at h1 h2 ⊢
      exact le_trans h1 h2)
    (fun a b => by
      rcases le_total (f a) (f b) with h | h <;> simp [h]) l
  exact hs.imp (fun h => by rwa [decide_eq_true_eq] at h)

theorem take_mergeSort_pairwise {α : Type} (f : α → ℚ) (l : List α) (k : Nat) :
    ((l.mergeSort (fun a b => decide (f a ≤ f b))).take k).Pairwise
      (fun a b => f a ≤ f b) :=
  List.Pairwise.sublist (List.take_sublist _ _) (mergeSort_key_pairwise f l)

/-- C6: both `getNearestATMs` variants return exactly `min K |catalog|`
entries (with `K = 5` hard-coded in `bot.js`), sorted non-decreasingly by
their `distance` field, on the routing-refined path and on both fallback
paths alike. -/
theorem c6_ranking_size_sorted
    (calcDist : ℚ → ℚ → ℚ → ℚ → ℚ) (userLat userLon : ℚ) (atms : List ATM)
    (K : Nat) (resp resp2 : GebetaResponse) :
    ((Part000.getNearestATMs calcDist userLat userLon atms K resp).length
        = min K atms.length ∧
      (Part000.getNearestATMs calcDist userLat userLon atms K resp).Pairwise
        (fun a b => a.distance ≤ b.distance)) ∧
    ((BotJs.getNearestATMs calcDist userLat userLon atms resp2).length
        = min 5 atms.length ∧
      (BotJs.getNearestATMs calcDist userLat userLon atms resp2).Pairwise
        (fun a b => a.distance ≤ b.distance)) := by
  constructor
  · cases resp with
    | error e =>
      simp only [Part000.getNearestATMs]
      constructor
      · simp [withDistances]
      · rw [List.pairwise_map]
        exact take_mergeSort_pairwise (fun a : DistATM => a.distance) _ K
    | ok o =>
      cases o with
      | none =>
        simp only [Part000.getNearestATMs]
        constructor
        · simp [withDistances]
        · rw [List.pairwise_map]
          exact take_mergeSort_pairwise (fun a : DistATM => a.distance) _ K
      | some routes =>
        simp only [Part000.getNearestATMs]
        constructor
        · simp
        · exact take_mergeSort_pairwise (fun a : ResultATM => a.distance) _ K
  · cases resp2 with
    | error e =>
      simp only [BotJs.getNearestATMs, BotJs.closest10]
      constructor
      · simp [withDistances]
        omega
      · rw [List.pairwise_map, List.take_take]
        exact take_mergeSort_pairwise (fun a : DistATM => a.distance) _ _
    | ok o =>
      cases o with
      | none =>
        simp only [BotJs.getNearestATMs, BotJs.closest10]
        constructor
        · simp [withDistances]
          omega
        · rw [List.pairwise_map, List.take_take]
          exact take_mergeSort_pairwise (fun a : DistATM => a.distance) _ _
      | some routes =>
        simp only [BotJs.getNearestATMs, BotJs.closest10, BotJs.refineWithApi]
        constructor
        · simp [withDistances]
          omega
        · rw [List.pairwise_map]
          exact take_mergeSort_pairwise (fun a : ApiDistATM => a.apiDistance) _ 5

/-- C4: `findATMsByName` returns exactly the scored candidates whose score
exceeds 0.3 (as a permutation of the filtered scored catalog, and every
returned entry satisfies the threshold), sorted descending by score; the
sort is stable, so the candidates tied at any score value `s` appear as the
subsequence they form in catalog order. -/
theorem c4_findMatches_contract (q : List Char) (atms : List ATM) :
    (findATMsByName q atms).Perm
      ((atms.map fun atm =>
        (⟨atm, getSimilarityScore q (extractNameAfterDash atm.name)⟩ :
          ScoredATM)).filter fun m => decide ((0.3 : ℚ) < m.score)) ∧
    (findATMsByName q atms).Pairwise (fun a b => b.score ≤ a.score) ∧
    (findATMsByName q atms).all (fun m => decide ((0.3 : ℚ) < m.score)) = true ∧
    (∀ s : ℚ,
      (((atms.map fun atm =>
          (⟨atm, getSimilarityScore q (extractNameAfterDash atm.name)⟩ :
            ScoredATM)).filter fun m => decide ((0.3 : ℚ) < m.score)).filter
          (fun m => decide (m.score = s))).Sublist (findATMsByName q atms)) := by
  have htrans : ∀ (a b c : ScoredATM),
      decide (b.score ≤ a.score) = true → decide (c.score ≤ b.score) = true →
      decide (c.score ≤ a.score) = true := fun a b c h1 h2 => by
    rw [decide_eq_true_eq] at h1 h2 ⊢
    exact le_trans h2 h1
  have htotal : ∀ (a b : ScoredATM),
      (decide (b.score ≤ a.score) || decide (a.score ≤ b.score)) = true :=
    fun a b => by
      rcases le_total a.score b.score with h | h <;> simp [h]
  simp only [findATMsByName]
  refine ⟨List.mergeSort_perm _ _, ?_, ?_, ?_⟩
  · exact (List.sorted_mergeSort htrans htotal _).imp
      (fun h => by rwa [decide_eq_true_eq] at h)
  · rw [List.all_eq_true]
    intro m hm
    have hmem : m ∈ (atms.map fun atm =>
        (⟨atm, getSimilarityScore q (extractNameAfterDash atm.name)⟩ :
          ScoredATM)).filter (fun m => decide ((0.3 : ℚ) < m.score)) :=
      ((List.mergeSort_perm _ _).mem_iff).mp hm
    exact (List.mem_filter.mp hmem).2
  · intro s
    apply List.sublist_mergeSort htrans htotal
    · apply List.pairwise_of_forall_mem_list
      intro a ha b hb
      have ha2 := (List.mem_filter.mp ha).2
      have hb2 := (List.mem_filter.mp hb).2
      rw [decide_eq_true_eq] at ha2 hb2 ⊢
      rw [ha2, hb2]
    · exact List.filter_sublist _

/-- C2: on an eleven-entry catalog, the routing request issued by the
unnamed variant's `getNearestATMs` carries all eleven catalog entries as
destinations — not the top `P = 10` geodesically pre-filtered candidates the
claim requires (no geodesic pre-filter runs before the routing call in that
variant). -/
theorem c2_counterexample :
    (Part000.gebetaDestinationsNear ex11ATMs).length = 11 ∧
    ex11ATMs.length = 11 := ⟨rfl, rfl⟩

/-- C2 (amended): in the shortlist variant (`bot.js`), the geodesic
pre-filter always runs first — the catalog is ranked by geodesic distance
(a sorted permutation), the top `P = 10 = 2·K` are taken, exactly those ten
are the routing request's destinations, and the refined result is the top
`K = 5` of those ten re-sorted by refined distance.  In the unnamed
variant's `getNearestATMs` the routing request instead carries the entire
catalog. -/
theorem c2_prefilter_shortlist (calcDist : ℚ → ℚ → ℚ → ℚ → ℚ)
    (userLat userLon : ℚ) (atms : List ATM) (routes : List RouteEntry) :
    (∃ full : List DistATM,
      full.Perm (withDistances calcDist userLat userLon atms) ∧
      full.Pairwise (fun a b => a.distance ≤ b.distance) ∧
      BotJs.closest10 calcDist userLat userLon atms = full.take 10) ∧
    BotJs.gebetaDestinations calcDist userLat userLon atms =
      (BotJs.closest10 calcDist userLat userLon atms).map
        (fun d => (d.atm.lat, d.atm.lon)) ∧
    (∃ p : List ApiDistATM,
      p.Perm (BotJs.refineWithApi routes
        (BotJs.closest10 calcDist userLat userLon atms)) ∧
      p.Pairwise (fun a b => a.apiDistance ≤ b.apiDistance) ∧
      BotJs.getNearestATMs calcDist userLat userLon atms (.ok (some routes)) =
        (p.take 5).map (fun a => ⟨a.atm, a.apiDistance, a.duration⟩)) ∧
    Part000.gebetaDestinationsNear atms = atms.map (fun d => (d.lon, d.lat)) := by
  refine ⟨⟨(withDistances calcDist userLat userLon atms).mergeSort
      (fun a b => decide (a.distance ≤ b.distance)),
      List.mergeSort_perm _ _, ?_, rfl⟩, rfl,
    ⟨(BotJs.refineWithApi routes
        (BotJs.closest10 calcDist userLat userLon atms)).mergeSort
      (fun a b => decide (a.apiDistance ≤ b.apiDistance)),
      List.mergeSort_perm _ _, ?_, rfl⟩, rfl⟩
  · exact mergeSort_key_pairwise (fun a : DistATM => a.distance) _
  · exact mergeSort_key_pairwise (fun a : ApiDistATM => a.apiDistance) _

/-- C1: a parsed routing response whose array does not cover every
pre-filtered candidate is NOT discarded: with two catalog entries and a
response covering only the first (with road distance 100), the first entry
keeps its refined distance 100 while the second keeps its geodesic distance
2 — a mixed result set, ordered differently from the pure geodesic ranking
that an entire-discard (shown for the hard-failure path) would return. -/
theorem c1_counterexample :
    BotJs.getNearestATMs cdEx 0 0 [atmA, atmB]
        (.ok (some [⟨none, none, none⟩, ⟨some 100, none, none⟩])) =
      [⟨atmB, 2, none⟩, ⟨atmA, 100, none⟩] ∧
    BotJs.getNearestATMs cdEx 0 0 [atmA, atmB] (.error ()) =
      [⟨atmA, 1, none⟩, ⟨atmB, 2, none⟩] ∧
    ([⟨atmB, 2, none⟩, ⟨atmA, 100, none⟩] : List ResultATM) ≠
      [⟨atmA, 1, none⟩, ⟨atmB, 2, none⟩] := by
  refine ⟨?_, ?_, ?_⟩
  · norm_num [BotJs.getNearestATMs, BotJs.closest10, BotJs.refineWithApi,
      withDistances, cdEx, atmA, atmB, List.mergeSort, List.merge,
      List.enum, List.enumFrom]
  · norm_num [BotJs.getNearestATMs, BotJs.closest10,
      withDistances, cdEx, atmA, atmB, List.mergeSort, List.merge]
  · intro h
    have h1 : (⟨atmB, 2, none⟩ : ResultATM) = ⟨atmA, 1, none⟩ := by
      injection h
    have h2 : (2 : ℚ) = 1 := congrArg ResultATM.distance h1
    norm_num at h2

/-- C1 (amended): when the routing call fails hard — a rejected promise
(network error, non-success status, unparseable body) or a parsed body
without the `origin_to_destination` array — `bot.js`'s `getNearestATMs`
discards the refinement entirely and returns the top 5 of the pure geodesic
ordering; but a parsed response array that merely fails to cover every
pre-filtered candidate is refined per entry, so one result set can mix
refined and geodesic distances. -/
theorem c1_failure_fallback (calcDist : ℚ → ℚ → ℚ → ℚ → ℚ)
    (userLat userLon : ℚ) (atms : List ATM) (resp : GebetaResponse)
    (h : resp = .error () ∨ resp = .ok none) :
    BotJs.getNearestATMs calcDist userLat userLon atms resp =
      (((withDistances calcDist userLat userLon atms).mergeSort
          (fun a b => decide (a.distance ≤ b.distance))).take 5).map
        (fun a => ⟨a.atm, a.distance, none⟩) := by
  rcases h with rfl | rfl
  · simp [BotJs.getNearestATMs, BotJs.closest10, List.take_take]
  · simp [BotJs.getNearestATMs, BotJs.closest10, List.take_take]

/-- Witness for C1's theorem: the concrete two-entry catalog under a
rejected routing promise falls back to the geodesic top five. -/
theorem c1_witness :
    BotJs.getNearestATMs cdEx 0 0 [atmA, atmB] (.error ()) =
      (((withDistances cdEx 0 0 [atmA, atmB]).mergeSort
          (fun a b => decide (a.distance ≤ b.distance))).take 5).map
        (fun a => ⟨a.atm, a.distance, none⟩) :=
  c1_failure_fallback cdEx 0 0 [atmA, atmB] (.error ()) (Or.inl rfl)

end ATMBot
